import Mathlib

/-!
Shallow embedding of the transform / color-grading / zoom-fit pipeline of
`src/ImageViewer.cpp` (Phototonic image viewer).

C `double` arithmetic is modelled by exact rational arithmetic (`ℚ`); the two
transcendental inputs of the grading stage, `tan(contrast)` and
`x ↦ pow(x, 1/brightness)`, are passed in as explicit parameters
(`tanContrast : ℚ`, `powBright : ℚ → ℚ`), so every definition stays
executable.  C `(int)` casts of floating values truncate toward zero
(`cTrunc`), `int → unsigned char` conversions reduce modulo 256
(`ucharOfInt`), and C integer division truncates toward zero (`Int.tdiv`).
-/

attribute [local semireducible] Rat.add Rat.sub Rat.mul Rat.inv Rat.ofScientific

set_option maxRecDepth 100000

namespace Phototonic

/-- Model of the C cast `(int) x` applied to a floating value: truncation
toward zero. -/
def cTrunc (q : ℚ) : ℤ := if 0 ≤ q then ⌊q⌋ else ⌈q⌉

/-- The ROUND macro of ImageViewer.cpp: `(int) ((x) + 0.5)`. -/
def cRound (q : ℚ) : ℤ := cTrunc (q + 1/2)

/-- Conversion of a C `int` value to `unsigned char`: reduction modulo 256
(C semantics of integer → unsigned conversion). -/
def ucharOfInt (n : ℤ) : ℕ := (n % 256).toNat

/-- Storing a floating value into an `unsigned char`: truncate toward zero,
then reduce modulo 256 (exact for the in-range values arising here). -/
def ucharOfFloat (q : ℚ) : ℕ := ucharOfInt (cTrunc q)

/-- Function `bound0To255` of ImageViewer.cpp: clamp an int to [0, 255]. -/
def bound0To255 (v : ℤ) : ℤ := if v > 255 then 255 else if v < 0 then 0 else v

/-- Function `hslValue` of ImageViewer.cpp: single ±255 fold of the hue, then the
4-segment piecewise-linear HSL ramp, scaled to 0..255 and rounded. -/
def hslValue (n1 n2 hue : ℚ) : ℤ :=
  let hue1 : ℚ := if hue > 255 then hue - 255 else if hue < 0 then hue + 255 else hue
  let value : ℚ :=
    if hue1 < 42.5 then n1 + (n2 - n1) * (hue1 / 42.5)
    else if hue1 < 127.5 then n2
    else if hue1 < 170 then n1 + (n2 - n1) * ((170 - hue1) / 42.5)
    else n1
  cRound (value * 255)

/-- Function `rgbToHsl` of ImageViewer.cpp; returns `(hue, sat, light)` as the three
`unsigned char` outputs. -/
def rgbToHsl (r g b : ℕ) : ℕ × ℕ × ℕ :=
  let mx : ℤ := if r > g then max (r : ℤ) (b : ℤ) else max (g : ℤ) (b : ℤ)
  let mn : ℤ := if r > g then min (g : ℤ) (b : ℤ) else min (r : ℤ) (b : ℤ)
  let l : ℚ := ((mx + mn : ℤ) : ℚ) / 2
  if mx = mn then
    (ucharOfInt (cRound 0), ucharOfInt (cRound 0), ucharOfInt (cRound l))
  else
    let delta : ℤ := mx - mn
    let s : ℚ :=
      if l < 128 then 255 * ((delta : ℚ) / ((mx + mn : ℤ) : ℚ))
      else 255 * ((delta : ℚ) / ((511 - mx - mn : ℤ) : ℚ))
    let hRaw : ℚ :=
      if (r : ℤ) = mx then ((g : ℤ) - (b : ℤ) : ℤ) / (delta : ℚ)
      else if (g : ℤ) = mx then 2 + (((b : ℤ) - (r : ℤ) : ℤ) : ℚ) / (delta : ℚ)
      else 4 + (((r : ℤ) - (g : ℤ) : ℤ) : ℚ) / (delta : ℚ)
    let h1 : ℚ := hRaw * 42.5
    let h2 : ℚ := if h1 < 0 then h1 + 255 else if h1 > 255 then h1 - 255 else h1
    (ucharOfInt (cRound h2), ucharOfInt (cRound s), ucharOfInt (cRound l))

/-- Function `hslToRgb` of ImageViewer.cpp; takes the (quantized) h, s, l as doubles
and returns the three `unsigned char` RGB outputs. -/
def hslToRgb (h s l : ℚ) : ℕ × ℕ × ℕ :=
  if s = 0 then
    (ucharOfFloat l, ucharOfFloat l, ucharOfFloat l)
  else
    let m2 : ℚ := if l < 128 then l * (255 + s) / 65025 else (l + s - l * s / 255) / 255
    let m1 : ℚ := l / 127.5 - m2
    (ucharOfInt (hslValue m1 m2 (h + 85)),
     ucharOfInt (hslValue m1 m2 h),
     ucharOfInt (hslValue m1 m2 (h - 85)))

/-- The RGB → HSL → RGB round trip (`hslToRgb` after `rgbToHsl`), with the
8-bit quantized hue/saturation/lightness in between, exactly as the
color-grading loop performs it when hue/saturation/lightness are left at
their identity settings. -/
def roundTrip (r g b : ℕ) : ℕ × ℕ × ℕ :=
  let hsl := rgbToHsl r g b
  hslToRgb (hsl.1 : ℚ) (hsl.2.1 : ℚ) (hsl.2.2 : ℚ)

/-- The brightness lookup table of `ImageViewer::colorize`
(`brightTransform[i] = MIN(255, (int) ((255.0 * pow(i / 255.0, 1.0 / brightness)) + 0.5))`),
parameterized by the transcendental map `powB : x ↦ pow(x, 1.0 / brightness)`,
which is passed in as an explicit function. -/
def brightTransform (powB : ℚ → ℚ) (i : ℕ) : ℕ :=
  ucharOfInt (min 255 (cTrunc (255 * powB ((i : ℚ) / 255) + 1/2)))

/-- The contrast lookup table of `ImageViewer::colorize`, parameterized by
the transcendental value `t = tan(contrast)` (`contrast = contrastVal / 100`),
which is passed in as an explicit rational. -/
def contrastTransform (t : ℚ) (i : ℕ) : ℕ :=
  if (i : ℤ) < cTrunc (128 + 128 * t) ∧ (i : ℤ) > cTrunc (128 - 128 * t) then
    ucharOfFloat (((i : ℚ) - 128) / t + 128)
  else if (i : ℤ) ≥ cTrunc (128 + 128 * t) then 255
  else 0

/-- The grading parameters read by `ImageViewer::colorize` from `Settings`.
The two transcendental ingredients are carried as explicit data:
`tanContrast` is the value `tan(contrastVal / 100.0)` and `powBright` is the
function `x ↦ pow(x, 1.0 / (brightVal / 100.0))`. -/
structure GradingParams where
  rNegateEnabled : Bool
  gNegateEnabled : Bool
  bNegateEnabled : Bool
  redVal : ℤ
  greenVal : ℤ
  blueVal : ℤ
  hueVal : ℤ
  saturationVal : ℤ
  lightnessVal : ℤ
  colorizeEnabled : Bool
  hueRedChannel : Bool
  hueGreenChannel : Bool
  hueBlueChannel : Bool
  tanContrast : ℚ
  powBright : ℚ → ℚ

/-- One channel's path through the first half of the colorize loop body:
optional negation, gain `(v * (gain + 100)) / 100` (C integer division),
brightness table, contrast table, each output clamped by `bound0To255`
exactly as in the source. -/
def chanPipe (neg : Bool) (gain : ℤ) (t : ℚ) (powB : ℚ → ℚ) (v : ℕ) : ℕ :=
  let v1 : ℤ := if neg then bound0To255 (255 - (v : ℤ)) else (v : ℤ)
  let v2 : ℤ := bound0To255 ((v1 * (gain + 100)).tdiv 100)
  let v3 : ℤ := bound0To255 ((brightTransform powB v2.toNat : ℕ) : ℤ)
  let v4 : ℤ := bound0To255 ((contrastTransform t v3.toNat : ℕ) : ℤ)
  v4.toNat

/-- The `(h, s, l)` triple the colorize loop hands to `hslToRgb`: the three
channels are pushed through `chanPipe`, converted by `rgbToHsl`, then hue is
replaced (colorize mode) or added (both stored into an `unsigned char`, hence
reduced mod 256), and saturation/lightness are scaled and clamped. -/
def gradedHsl (P : GradingParams) (r g b : ℕ) : ℕ × ℕ × ℕ :=
  let r1 := chanPipe P.rNegateEnabled P.redVal P.tanContrast P.powBright r
  let g1 := chanPipe P.gNegateEnabled P.greenVal P.tanContrast P.powBright g
  let b1 := chanPipe P.bNegateEnabled P.blueVal P.tanContrast P.powBright b
  let hsl := rgbToHsl r1 g1 b1
  let h2 : ℕ := if P.colorizeEnabled then ucharOfInt P.hueVal
                else ucharOfInt ((hsl.1 : ℤ) + P.hueVal)
  let s2 : ℕ := ucharOfInt (bound0To255 (((hsl.2.1 : ℤ) * P.saturationVal).tdiv 100))
  let l2 : ℕ := ucharOfInt (bound0To255 (((hsl.2.2 : ℤ) * P.lightnessVal).tdiv 100))
  (h2, s2, l2)

/-- One RGBA pixel, 8 bits per channel. -/
structure Pix where
  r : ℕ
  g : ℕ
  b : ℕ
  a : ℕ
deriving DecidableEq

/-- The loop body of `ImageViewer::colorize` for one pixel: grade the three
channels, convert back to RGB, then write back each channel only when its
enable flag is set (otherwise the pre-grading channel value of `line[x]` is
kept).  When the image has no alpha channel the pixel is written with
`qRgb`, whose alpha byte is 255. -/
def colorizePixel (P : GradingParams) (hasAlpha : Bool) (p : Pix) : Pix :=
  let hsl := gradedHsl P p.r p.g p.b
  let rgb := hslToRgb (hsl.1 : ℚ) (hsl.2.1 : ℚ) (hsl.2.2 : ℚ)
  { r := if P.hueRedChannel then rgb.1 else p.r
    g := if P.hueGreenChannel then rgb.2.1 else p.g
    b := if P.hueBlueChannel then rgb.2.2 else p.b
    a := if hasAlpha then p.a else 255 }

/-- An in-memory raster: width, height, alpha-presence flag, and the pixel
grid (reads outside the grid are irrelevant to every theorem below). -/
structure Image where
  width : ℕ
  height : ℕ
  hasAlpha : Bool
  pix : ℕ → ℕ → Pix

/-- Function `ImageViewer::colorize` over a whole image: every pixel goes through
`colorizePixel`; dimensions are unchanged. -/
def colorizeImage (P : GradingParams) (img : Image) : Image :=
  { img with pix := fun x y => colorizePixel P img.hasAlpha (img.pix x y) }

/-- Qt operation `QImage::mirrored(horizontal, vertical)`: flip the pixel grid along the
requested axes. -/
def mirrored (fh fv : Bool) (img : Image) : Image :=
  { img with pix := fun x y =>
      img.pix (if fh then img.width - 1 - x else x) (if fv then img.height - 1 - y else y) }

/-- The fill value Qt uses for the parts of a `QImage::copy` target that lie
outside the source image. -/
def pixZero : Pix := ⟨0, 0, 0, 0⟩

/-- Qt operation `QImage::copy(x, y, w, h)`: a `w × h` image whose pixel `(i, j)` is
source pixel `(x + i, y + j)` when that lies inside the source and zero
otherwise; a non-positive requested size yields a null (0 × 0) image. -/
def qimageCopy (img : Image) (x y w h : ℤ) : Image :=
  if w ≤ 0 ∨ h ≤ 0 then ⟨0, 0, img.hasAlpha, fun _ _ => pixZero⟩
  else
    ⟨w.toNat, h.toNat, img.hasAlpha, fun i j =>
      if 0 ≤ x + i ∧ x + i < (img.width : ℤ) ∧ 0 ≤ y + j ∧ y + j < (img.height : ℤ)
      then img.pix (x + i).toNat (y + j).toNat
      else pixZero⟩

/-- The settings read by `ImageViewer::transform`: rotation in degrees,
the two flip switches, the four absolute crop fields and the four
percentage crop fields. -/
structure TransformSettings where
  rotDeg : ℚ
  flipH : Bool
  flipV : Bool
  cropLeft : ℤ
  cropTop : ℤ
  cropWidth : ℤ
  cropHeight : ℤ
  cropLeftPercent : ℤ
  cropTopPercent : ℤ
  cropWidthPercent : ℤ
  cropHeightPercent : ℤ

/-- Function `ImageViewer::transform`.  The smooth-resampling rotation applied for a
non-zero angle is an external Qt operation and is passed in abstractly as
`rotFn` (it is never invoked when the angle is zero, since
`qFuzzyCompare(x, 0)` holds exactly when `x = 0`).  Flip, percentage-crop
resolution against the current dimensions, and the two crop branches follow
the source line by line. -/
def transform (rotFn : Image → Image) (S : TransformSettings) (img0 : Image) : Image :=
  let img1 := if S.rotDeg ≠ 0 then rotFn img0 else img0
  let img2 := if S.flipH || S.flipV then mirrored S.flipH S.flipV img1 else img1
  let pcOn : Prop := S.cropLeftPercent ≠ 0 ∨ S.cropTopPercent ≠ 0 ∨
      S.cropWidthPercent ≠ 0 ∨ S.cropHeightPercent ≠ 0
  let clp : ℤ := if pcOn then ((img2.width : ℤ) * S.cropLeftPercent).tdiv 100 else 0
  let ctp : ℤ := if pcOn then ((img2.height : ℤ) * S.cropTopPercent).tdiv 100 else 0
  let cwp : ℤ := if pcOn then ((img2.width : ℤ) * S.cropWidthPercent).tdiv 100 else 0
  let chp : ℤ := if pcOn then ((img2.height : ℤ) * S.cropHeightPercent).tdiv 100 else 0
  if S.cropLeft ≠ 0 ∨ S.cropTop ≠ 0 ∨ S.cropWidth ≠ 0 ∨ S.cropHeight ≠ 0 then
    qimageCopy img2 (S.cropLeft + clp) (S.cropTop + ctp)
      ((img2.width : ℤ) - S.cropLeft - S.cropWidth - clp - cwp)
      ((img2.height : ℤ) - S.cropTop - S.cropHeight - ctp - chp)
  else if pcOn then
    qimageCopy img2 clp ctp
      ((img2.width : ℤ) - clp - cwp)
      ((img2.height : ℤ) - ctp - chp)
  else img2

/-- The mirror layout selector of `ImageViewer::mirror`. -/
inductive MirrorLayout where
  | LayNone
  | LayDual
  | LayTriple
  | LayQuad
  | LayVDual
deriving DecidableEq

/-- Function `ImageViewer::mirror`: composite the working image and mirrored copies
of it onto a larger canvas with `QPainter::drawImage` (modelled as pixel
copies at the given offsets; the tiles cover the canvas and do not
overlap).  `LayNone` is never invoked by the caller (`refresh` guards the
call) and passes the image through. -/
def mirrorComposite (layout : MirrorLayout) (img : Image) : Image :=
  let w := img.width
  let h := img.height
  match layout with
  | .LayNone => img
  | .LayDual =>
      ⟨2 * w, h, img.hasAlpha, fun x y =>
        if x < w then img.pix x y else (mirrored true false img).pix (x - w) y⟩
  | .LayTriple =>
      ⟨3 * w, h, img.hasAlpha, fun x y =>
        if x < w then img.pix x y
        else if x < 2 * w then (mirrored true false img).pix (x - w) y
        else (mirrored false false img).pix (x - 2 * w) y⟩
  | .LayQuad =>
      ⟨2 * w, 2 * h, img.hasAlpha, fun x y =>
        if x < w then
          (if y < h then img.pix x y else (mirrored false true img).pix x (y - h))
        else
          (if y < h then (mirrored true false img).pix (x - w) y
           else (mirrored true true img).pix (x - w) (y - h))⟩
  | .LayVDual =>
      ⟨w, 2 * h, img.hasAlpha, fun x y =>
        if y < h then img.pix x y else (mirrored false true img).pix x (y - h)⟩

/-- The zoom policy enumeration (`Settings::zoomInFlags` /
`Settings::zoomOutFlags`). -/
inductive ZoomPolicy where
  | Disable
  | WidthAndHeight
  | Width
  | Height
  | Disprop
deriving DecidableEq

/-- Function `calcZoom`: `size * Settings::imageZoomFactor`, truncated back to `int`. -/
def calcZoom (f : ℚ) (s : ℤ) : ℤ := cTrunc ((s : ℚ) * f)

/-- Qt operation `QSize::scale(sw, sh, Qt::KeepAspectRatio)` applied to a `w × h` size
(Qt source semantics, with truncating integer division). -/
def scaleKeep (w h sw sh : ℤ) : ℤ × ℤ :=
  if w = 0 ∨ h = 0 then (sw, sh)
  else
    let rw := (sh * w).tdiv h
    if rw ≤ sw then (rw, sh) else (sw, (sw * h).tdiv w)

/-- Function `getHeightByWidth` of ImageViewer.cpp: `imgHeight / (imgWidth / newWidth)`
in floating point, truncated to an unsigned int. -/
def getHeightByWidth (imgWidth imgHeight newWidth : ℤ) : ℤ :=
  cTrunc ((imgHeight : ℚ) / ((imgWidth : ℚ) / (newWidth : ℚ)))

/-- Function `getWidthByHeight` of ImageViewer.cpp, symmetric to `getHeightByWidth`. -/
def getWidthByHeight (imgHeight imgWidth newHeight : ℤ) : ℤ :=
  cTrunc ((imgWidth : ℚ) / ((imgHeight : ℚ) / (newHeight : ℚ)))

/-- One zoom-policy switch of `ImageViewer::resizeImage`.  `zoomIn` selects
between the zoom-in conditions (image fits the viewport) and the zoom-out
conditions (image exceeds the viewport); the `Disprop` case scales
unconditionally with `Qt::IgnoreAspectRatio`. -/
def zoomStep (zoomIn : Bool) (policy : ZoomPolicy) (f : ℚ) (vw vh : ℤ) (s : ℤ × ℤ) : ℤ × ℤ :=
  let w := s.1
  let h := s.2
  let trig : Prop := if zoomIn then w ≤ vw ∧ h ≤ vh else w ≥ vw ∨ h ≥ vh
  match policy with
  | .Disable => if trig then scaleKeep w h (calcZoom f w) (calcZoom f h) else s
  | .WidthAndHeight => if trig then scaleKeep w h (calcZoom f vw) (calcZoom f vh) else s
  | .Width =>
      if (if zoomIn then w ≤ vw else w ≥ vw) then
        scaleKeep w h (calcZoom f vw) (calcZoom f (getHeightByWidth w h vw))
      else s
  | .Height =>
      if (if zoomIn then h ≤ vh else h ≥ vh) then
        scaleKeep w h (calcZoom f (getWidthByHeight h w vh)) (calcZoom f vh)
      else s
  | .Disprop =>
      let nw := if (if zoomIn then w ≤ vw else w ≥ vw) then vw else w
      let nh := if (if zoomIn then h ≤ vh else h ≥ vh) then vh else h
      (calcZoom f nw, calcZoom f nh)

/-- The size computation of `ImageViewer::resizeImage`: the zoom-in switch
followed by the zoom-out switch on the updated size, unless
`tempDisableResize` keeps the current size (an aspect-preserving scale of a
size to itself is that size). -/
def resizeImageSize (zin zout : ZoomPolicy) (f : ℚ) (vw vh : ℤ)
    (tempDisableResize : Bool) (w h : ℤ) : ℤ × ℤ :=
  if tempDisableResize then scaleKeep w h w h
  else zoomStep false zout f vw vh (zoomStep true zin f vw vh (w, h))

/-- The grading parameters singled out by the spec as the identity
configuration: saturation = 100, lightness = 100, hue = 0, colorize off, all
channels enabled, no negation, zero gains, brightness = 100 (so the
brightness exponent is 1 and `powBright` is the identity map) and
contrast = 0 (so `tan(contrast) = 0`). -/
def identityGradingParams : GradingParams :=
  { rNegateEnabled := false
    gNegateEnabled := false
    bNegateEnabled := false
    redVal := 0
    greenVal := 0
    blueVal := 0
    hueVal := 0
    saturationVal := 100
    lightnessVal := 100
    colorizeEnabled := false
    hueRedChannel := true
    hueGreenChannel := true
    hueBlueChannel := true
    tanContrast := 0
    powBright := id }

/-- A 1×1 mid-gray test image. -/
def grayImage : Image := ⟨1, 1, true, fun _ _ => ⟨100, 100, 100, 255⟩⟩

/-- The per-channel step the zero-contrast lookup table performs: values
below 128 go to 0, the rest to 255. -/
def binarize128 (v : ℕ) : ℕ := if v < 128 then 0 else 255

/-- Grading parameters for the hue-rotation claim: hue = 100, colorize off,
everything else at identity (`tanContrast = 1` makes the contrast table the
identity on 1..255). -/
def hueRotateParams : GradingParams :=
  { identityGradingParams with hueVal := 100, tanContrast := 1 }

/-- Modelled from the spec: the single ±255 fold it describes for wrapping
a hue value back into the 0–255 domain (the fold `hslValue` itself applies
to its own hue argument), as opposed to the mod-256 reduction the
`unsigned char` store in the colorize loop performs. -/
def hueFold255 (n : ℤ) : ℤ := if n > 255 then n - 255 else if n < 0 then n + 255 else n

/-- Modelled from the spec: the contrast-table formula exactly as the claim
words it, with real-valued (un-truncated) regime bounds
`128 − 128·tan` and `128 + 128·tan` and a clamp to [0, 255]. -/
def specContrastReal (t : ℚ) (i : ℕ) : ℚ :=
  if 128 - 128 * t < (i : ℚ) ∧ (i : ℚ) < 128 + 128 * t then
    min 255 (max 0 (((i : ℚ) - 128) / t + 128))
  else if (i : ℚ) ≥ 128 + 128 * t then 255
  else 0

/-- A 2×1 test image with distinguishable pixels. -/
def testImg : Image := ⟨2, 1, true, fun x y => ⟨x + 10, y + 20, 30, 255⟩⟩

/-- A 4×4 test image. -/
def img4x4 : Image := ⟨4, 4, true, fun _ _ => ⟨1, 2, 3, 255⟩⟩

/-- Transform settings requesting an absolute left crop of 10 pixels — a
degenerate request on any image narrower than 10 pixels. -/
def degenerateCrop : TransformSettings := ⟨0, false, false, 10, 0, 0, 0, 0, 0, 0, 0⟩

/-- Grading parameters with all three channel-enable flags off (other
fields arbitrary but concrete). -/
def allChannelsOffParams : GradingParams :=
  { identityGradingParams with
      hueRedChannel := false
      hueGreenChannel := false
      hueBlueChannel := false
      hueVal := 77
      saturationVal := 13
      rNegateEnabled := true
      redVal := 55 }

/-! Helper lemmas about the C numeric conversions. -/

theorem cTrunc_of_nonneg {q : ℚ} (h : 0 ≤ q) : cTrunc q = ⌊q⌋ := if_pos h

theorem cTrunc_cast_le {q : ℚ} (h : 0 ≤ q) : (cTrunc q : ℚ) ≤ q := by
  rw [cTrunc_of_nonneg h]
  exact Int.floor_le q

theorem sub_one_lt_cTrunc (q : ℚ) : q - 1 < (cTrunc q : ℚ) := by
  unfold cTrunc
  split
  · exact Int.sub_one_lt_floor q
  · calc q - 1 < q := by linarith
      _ ≤ (⌈q⌉ : ℚ) := Int.le_ceil q

theorem ucharOfInt_lt (n : ℤ) : ucharOfInt n < 256 := by
  unfold ucharOfInt
  have h := Int.emod_lt_of_pos n (b := 256) (by norm_num)
  omega

theorem ucharOfInt_eq_of_lt {n : ℤ} (h0 : 0 ≤ n) (h : n < 256) : (ucharOfInt n : ℤ) = n := by
  unfold ucharOfInt
  rw [Int.emod_eq_of_lt h0 h]
  omega

theorem ucharOfInt_natCast {n : ℕ} (h : n < 256) : ucharOfInt ((n : ℤ)) = n := by
  have := ucharOfInt_eq_of_lt (n := (n : ℤ)) (by positivity) (by exact_mod_cast h)
  omega

theorem bound0To255_eq_of {v : ℤ} (h0 : 0 ≤ v) (h : v ≤ 255) : bound0To255 v = v := by
  unfold bound0To255
  omega

theorem rgbToHsl_lt (r g b : ℕ) :
    (rgbToHsl r g b).1 < 256 ∧ (rgbToHsl r g b).2.1 < 256 ∧ (rgbToHsl r g b).2.2 < 256 := by
  unfold rgbToHsl
  by_cases hrg : r > g <;>
    simp only [hrg, if_true, if_false, ite_true, ite_false] <;>
    (split <;> refine ⟨?_, ?_, ?_⟩ <;> dsimp only <;> exact ucharOfInt_lt _)

theorem ucharOfInt_add_zero {h : ℕ} (hh : h < 256) : ucharOfInt ((h : ℤ) + 0) = h := by
  rw [add_zero]
  exact ucharOfInt_natCast hh

theorem ucharOfInt_scale100 {s : ℕ} (hs : s < 256) :
    ucharOfInt (bound0To255 (((s : ℤ) * 100).tdiv 100)) = s := by
  rw [Int.mul_tdiv_cancel _ (by norm_num : (100 : ℤ) ≠ 0)]
  rw [bound0To255_eq_of (by positivity) (by exact_mod_cast Nat.lt_succ_iff.mp hs)]
  exact ucharOfInt_natCast hs

theorem chanPipe_identityParams (v : ℕ) (hv : v < 256) :
    chanPipe false 0 0 id v = binarize128 v := by
  have h : ∀ w : Fin 256, chanPipe false 0 0 id w.1 = binarize128 w.1 := by decide
  exact h ⟨v, hv⟩

/-! Claim theorems. -/

/-- Claim C1, counterexample: the HSL round trip does not reproduce every
8-bit triple within ±1 per channel.  At (r,g,b) = (0,167,249) the green
channel comes back as 171, an error of 4. -/
theorem roundTrip_not_within_one :
    roundTrip 0 167 249 = (0, 171, 250) ∧ ¬((roundTrip 0 167 249).2.1 ≤ 167 + 1) := by
  decide

/-- Claim C1, amended: the round trip `hslToRgb ∘ rgbToHsl` is the identity
on every achromatic triple (r = g = b < 256); in general the ±1 bound
fails, the per-channel error reaching 4 at (0,167,249) ↦ (0,171,250). -/
theorem roundTrip_achromatic_exact :
    (∀ v : ℕ, v < 256 → roundTrip v v v = (v, v, v)) ∧
    roundTrip 0 167 249 = (0, 171, 250) := by
  constructor
  · have h : ∀ v : Fin 256, roundTrip v.1 v.1 v.1 = (v.1, v.1, v.1) := by decide
    exact fun v hv => h ⟨v, hv⟩
  · decide

/-- Claim C1, witness for the amended theorem at v = 7. -/
theorem roundTrip_achromatic_witness : roundTrip 7 7 7 = (7, 7, 7) :=
  roundTrip_achromatic_exact.1 7 (by norm_num)

/-- Claim C10: in hue-rotate mode the computed hue plus the configured hue
is stored in an `unsigned char`, so it wraps mod 256 before `hslToRgb`; at
pixel (12,0,17) (computed hue 200) with configured hue 100 the stored hue
is (200 + 100) % 256 = 44, while the spec's single ±255 fold would give 45. -/
theorem colorize_hue_wraps_mod256_not_fold :
    (rgbToHsl 12 0 17).1 = 200 ∧
    (gradedHsl hueRotateParams 12 0 17).1 = ucharOfInt (200 + 100) ∧
    (gradedHsl hueRotateParams 12 0 17).1 = 44 ∧
    hueFold255 (200 + 100) = 45 ∧
    ((gradedHsl hueRotateParams 12 0 17).1 : ℤ) ≠ hueFold255 (200 + 100) := by
  decide

/-- Claim C5: the Dual mirror layout yields a 2w×h canvas whose left half
is the input image and whose right half is its horizontal mirror
(column w + x holds source column w − 1 − x). -/
theorem mirror_dual_spec (img : Image) :
    (mirrorComposite .LayDual img).width = 2 * img.width ∧
    (mirrorComposite .LayDual img).height = img.height ∧
    (∀ x y, x < img.width →
      (mirrorComposite .LayDual img).pix x y = img.pix x y) ∧
    (∀ x y, x < img.width →
      (mirrorComposite .LayDual img).pix (img.width + x) y = img.pix (img.width - 1 - x) y) := by
  refine ⟨rfl, rfl, fun x y hx => ?_, fun x y hx => ?_⟩
  · simp [mirrorComposite, hx]
  · have hnot : ¬(img.width + x < img.width) := by omega
    simp [mirrorComposite, mirrored, hnot]

/-- Claim C5, witness on a concrete 2×1 image. -/
theorem mirror_dual_witness :
    (mirrorComposite .LayDual testImg).pix 3 0 = testImg.pix 0 0 := by
  have h := (mirror_dual_spec testImg).2.2.2 1 0 (by norm_num [testImg])
  simpa [testImg] using h

/-- Claim C6: the Triple mirror layout yields a 3w×h canvas; tile 0 is the
image, tile 1 its horizontal mirror, and tile 2 — produced by
`mirrored(false, false)`, a no-op copy — is pixel-identical to tile 0. -/
theorem mirror_triple_spec (img : Image) :
    (mirrorComposite .LayTriple img).width = 3 * img.width ∧
    (mirrorComposite .LayTriple img).height = img.height ∧
    (∀ x y, x < img.width →
      (mirrorComposite .LayTriple img).pix x y = img.pix x y) ∧
    (∀ x y, x < img.width →
      (mirrorComposite .LayTriple img).pix (img.width + x) y = img.pix (img.width - 1 - x) y) ∧
    (∀ x y, x < img.width →
      (mirrorComposite .LayTriple img).pix (2 * img.width + x) y = img.pix x y) := by
  refine ⟨rfl, rfl, fun x y hx => ?_, fun x y hx => ?_, fun x y hx => ?_⟩
  · simp [mirrorComposite, hx]
  · have h1 : ¬(img.width + x < img.width) := by omega
    have h2 : img.width + x < 2 * img.width := by omega
    simp [mirrorComposite, mirrored, h1, h2]
  · have h1 : ¬(2 * img.width + x < img.width) := by omega
    have h2 : ¬(2 * img.width + x < 2 * img.width) := by omega
    simp [mirrorComposite, mirrored, h1, h2]

/-- Claim C6, witness on a concrete 2×1 image. -/
theorem mirror_triple_witness :
    (mirrorComposite .LayTriple testImg).pix 5 0 = testImg.pix 1 0 := by
  have h := (mirror_triple_spec testImg).2.2.2.2 1 0 (by norm_num [testImg])
  simpa [testImg] using h

/-- Claim C2, counterexample: grading with saturation = 100, lightness =
100, hue = 0, colorize off, all channels enabled, no negation, zero gains,
brightness = 100 and contrast = 0 is NOT an identity transform — a 1×1
mid-gray (100,100,100) image becomes black, because the contrast table at
`tan(0) = 0` maps every value below 128 to 0 and the rest to 255. -/
theorem colorize_identity_settings_not_identity :
    (colorizeImage identityGradingParams grayImage).pix 0 0 = ⟨0, 0, 0, 255⟩ ∧
    grayImage.pix 0 0 = ⟨100, 100, 100, 255⟩ ∧
    (colorizeImage identityGradingParams grayImage).pix 0 0 ≠ grayImage.pix 0 0 := by
  decide

/-- Claim C2, amended: with saturation = 100, lightness = 100, hue = 0,
colorize off, all channels enabled, no negation, zero gains, brightness =
100 and contrast = 0, the grading stage maps each pixel to the HSL round
trip of its per-channel 128-threshold binarization (so it fixes all-black
and all-white pixels but is not the identity in general). -/
theorem colorize_identity_settings_binarizes (r g b a : ℕ)
    (hr : r < 256) (hg : g < 256) (hb : b < 256) :
    colorizePixel identityGradingParams true ⟨r, g, b, a⟩ =
      ⟨(roundTrip (binarize128 r) (binarize128 g) (binarize128 b)).1,
       (roundTrip (binarize128 r) (binarize128 g) (binarize128 b)).2.1,
       (roundTrip (binarize128 r) (binarize128 g) (binarize128 b)).2.2, a⟩ := by
  obtain ⟨L1, L2, L3⟩ := rgbToHsl_lt (binarize128 r) (binarize128 g) (binarize128 b)
  simp only [colorizePixel, gradedHsl, roundTrip, identityGradingParams]
  rw [chanPipe_identityParams r hr, chanPipe_identityParams g hg, chanPipe_identityParams b hb]
  simp only [Bool.false_eq_true, if_false, if_true]
  rw [ucharOfInt_add_zero L1, ucharOfInt_scale100 L2, ucharOfInt_scale100 L3]

/-- Claim C2, witness for the amended theorem at pixel (100,100,100,42). -/
theorem colorize_identity_settings_witness :
    colorizePixel identityGradingParams true ⟨100, 100, 100, 42⟩ = ⟨0, 0, 0, 42⟩ := by
  rw [colorize_identity_settings_binarizes 100 100 100 42
    (by norm_num) (by norm_num) (by norm_num)]
  decide

/-- Claim C3, counterexample: with the claim's real-valued regime bounds,
the table and the claimed formula disagree.  At `tan(contrast) = 27/1280`
(so 128·tan = 2.7) the index 130 lies strictly between the real bounds
125.3 and 130.7, where the claim prescribes the clamped value
(130−128)/tan + 128 = 6016/27 ≈ 222.8, but the code compares against the
int-truncated bound `(int)130.7 = 130` and stores 255. -/
theorem contrastTransform_realbounds_mismatch :
    contrastTransform (27/1280) 130 = 255 ∧
    (128 - 128 * (27/1280 : ℚ) < (130 : ℚ) ∧ (130 : ℚ) < 128 + 128 * (27/1280 : ℚ)) ∧
    specContrastReal (27/1280) 130 = 6016/27 ∧
    ((6016 : ℚ)/27) < 255 ∧
    ((contrastTransform (27/1280) 130 : ℕ) : ℚ) ≠ specContrastReal (27/1280) 130 := by
  decide

/-- Claim C3, amended: for every `t = tan(contrast) > 0` and table index
`i < 256`, the contrast table equals the claimed clamped formula once the
regime bounds are read as the code's int-truncated `(int)(128 ± 128·tan)`;
inside that regime the un-clamped value already lies in (0, 256), so the
clamp (and the unsigned-char store) is exact. -/
theorem contrastTransform_clamp (t : ℚ) (ht : 0 < t) (i : ℕ) (_hi : i < 256) :
    contrastTransform t i =
      if (i : ℤ) < cTrunc (128 + 128 * t) ∧ (i : ℤ) > cTrunc (128 - 128 * t) then
        (min 255 (max 0 (cTrunc (((i : ℚ) - 128) / t + 128)))).toNat
      else if (i : ℤ) ≥ cTrunc (128 + 128 * t) then 255
      else 0 := by
  unfold contrastTransform
  split_ifs with h1 h2
  · obtain ⟨hlt, hgt⟩ := h1
    set v : ℚ := ((i : ℚ) - 128) / t + 128 with hv
    have hY : (0 : ℚ) ≤ 128 + 128 * t := by positivity
    have hub : (i : ℚ) ≤ 128 + 128 * t - 1 := by
      have h := cTrunc_cast_le hY
      have h' : ((i : ℤ) : ℚ) + 1 ≤ (cTrunc (128 + 128 * t) : ℚ) := by
        exact_mod_cast Int.add_one_le_iff.mpr hlt
      push_cast at h' ⊢
      linarith
    have hlb : 128 - 128 * t < (i : ℚ) := by
      have h := sub_one_lt_cTrunc (128 - 128 * t)
      have h' : (cTrunc (128 - 128 * t) : ℚ) + 1 ≤ ((i : ℤ) : ℚ) := by
        exact_mod_cast Int.add_one_le_iff.mpr hgt
      push_cast at h' ⊢
      linarith
    have hv_pos : 0 < v := by
      rw [hv]
      have h : (-128 : ℚ) < ((i : ℚ) - 128) / t := by
        rw [lt_div_iff₀ ht]
        linarith
      linarith
    have hv_lt : v < 256 := by
      rw [hv]
      have h : ((i : ℚ) - 128) / t < 128 := by
        rw [div_lt_iff₀ ht]
        linarith
      linarith
    have hfl : cTrunc v = ⌊v⌋ := cTrunc_of_nonneg (le_of_lt hv_pos)
    have h0 : 0 ≤ ⌊v⌋ := Int.floor_nonneg.mpr (le_of_lt hv_pos)
    have h255 : ⌊v⌋ ≤ 255 := by
      have h : ⌊v⌋ < 256 := Int.floor_lt.mpr (by exact_mod_cast hv_lt)
      omega
    unfold ucharOfFloat ucharOfInt
    rw [hfl, show min 255 (max 0 ⌊v⌋) = ⌊v⌋ by omega,
      Int.emod_eq_of_lt h0 (by omega)]
  · rfl
  · rfl

/-- Claim C3, witness for the amended theorem at t = 1, i = 200. -/
theorem contrastTransform_clamp_witness : contrastTransform 1 200 = 200 := by
  rw [contrastTransform_clamp 1 (by norm_num) 200 (by norm_num)]
  decide

/-- Claim C7, counterexample: with zoom-in policy Disable, zoom factor 3/2,
a 7×3 image and a 100×100 viewport, `resizeImage` yields 9×4 — the width is
neither `(int)(7 · 1.5) = 10` nor `round(7 · 1.5) = 11`, because
`QSize::scale` re-fits the truncated target box with integer division. -/
theorem resize_disable_not_plain_multiplier :
    resizeImageSize .Disable .Disable (3/2) 100 100 false 7 3 = (9, 4) ∧
    calcZoom (3/2) 7 = 10 ∧
    (resizeImageSize .Disable .Disable (3/2) 100 100 false 7 3).1 ≠ calcZoom (3/2) 7 ∧
    cRound ((7 : ℚ) * (3/2)) = 11 ∧
    (resizeImageSize .Disable .Disable (3/2) 100 100 false 7 3).1 ≠ cRound ((7 : ℚ) * (3/2)) := by
  decide

/-- Claim C7, amended: with zoom-in policy Disable, `disableResize` unset,
an image strictly smaller than the viewport, a zoom-out policy other than
Disproportionate, and the zoomed size still strictly inside the viewport,
the result is the `Qt::KeepAspectRatio` fit of (w, h) into
`((int)(w·factor), (int)(h·factor))`. -/
theorem resize_disable_small_image (zout : ZoomPolicy) (f : ℚ) (w h vw vh : ℤ)
    (hw : w < vw) (hh : h < vh) (hzo : zout ≠ ZoomPolicy.Disprop)
    (hfw : (scaleKeep w h (calcZoom f w) (calcZoom f h)).1 < vw)
    (hfh : (scaleKeep w h (calcZoom f w) (calcZoom f h)).2 < vh) :
    resizeImageSize ZoomPolicy.Disable zout f vw vh false w h =
      scaleKeep w h (calcZoom f w) (calcZoom f h) := by
  cases zout with
  | Disprop => exact absurd rfl hzo
  | Disable =>
      simp [resizeImageSize, zoomStep, hw.le, hh.le, not_le.mpr hfw, not_le.mpr hfh]
  | WidthAndHeight =>
      simp [resizeImageSize, zoomStep, hw.le, hh.le, not_le.mpr hfw, not_le.mpr hfh]
  | Width =>
      simp [resizeImageSize, zoomStep, hw.le, hh.le, not_le.mpr hfw, not_le.mpr hfh]
  | Height =>
      simp [resizeImageSize, zoomStep, hw.le, hh.le, not_le.mpr hfw, not_le.mpr hfh]

/-- Claim C7, witness for the amended theorem: factor 2, 7×3 image, 100×100
viewport, zoom-out Disable; the result is exactly (14, 6). -/
theorem resize_disable_small_image_witness :
    resizeImageSize ZoomPolicy.Disable ZoomPolicy.Disable 2 100 100 false 7 3 = (14, 6) := by
  rw [resize_disable_small_image ZoomPolicy.Disable 2 7 3 100 100
    (by norm_num) (by norm_num) (by decide) (by decide) (by decide)]
  decide

/-- Claim C8: when a channel's enable flag is false, the colorize loop
writes back the pre-grading value of that channel, whatever the other
grading parameters are. -/
theorem colorize_channel_enable_mask (P : GradingParams) (ha : Bool) (p : Pix) :
    (P.hueRedChannel = false → (colorizePixel P ha p).r = p.r) ∧
    (P.hueGreenChannel = false → (colorizePixel P ha p).g = p.g) ∧
    (P.hueBlueChannel = false → (colorizePixel P ha p).b = p.b) := by
  refine ⟨fun h => ?_, fun h => ?_, fun h => ?_⟩ <;> simp [colorizePixel, h]

/-- Claim C8, witness: with all three enable flags off (and assorted
non-identity settings), pixel (5,6,7,8) keeps its RGB channels. -/
theorem colorize_channel_enable_mask_witness :
    (colorizePixel allChannelsOffParams true ⟨5, 6, 7, 8⟩).r = 5 ∧
    (colorizePixel allChannelsOffParams true ⟨5, 6, 7, 8⟩).g = 6 ∧
    (colorizePixel allChannelsOffParams true ⟨5, 6, 7, 8⟩).b = 7 :=
  ⟨(colorize_channel_enable_mask allChannelsOffParams true ⟨5, 6, 7, 8⟩).1 (by rfl),
   (colorize_channel_enable_mask allChannelsOffParams true ⟨5, 6, 7, 8⟩).2.1 (by rfl),
   (colorize_channel_enable_mask allChannelsOffParams true ⟨5, 6, 7, 8⟩).2.2 (by rfl)⟩

/-- Claim C4: with rotation 0, both flips off and all eight crop fields
zero, `ImageViewer::transform` returns its input unchanged. -/
theorem transform_identity (rotFn : Image → Image) (img : Image) :
    transform rotFn ⟨0, false, false, 0, 0, 0, 0, 0, 0, 0, 0⟩ img = img := by
  simp [transform]

/-- Claim C9: `transform` performs no crop validation; a degenerate crop
request (absolute left crop 10 on a 4-wide image, requested width
4 − 10 = −6) silently produces a null 0×0 image instead of an error. -/
theorem transform_degenerate_crop_null :
    (transform id degenerateCrop img4x4).width = 0 ∧
    (transform id degenerateCrop img4x4).height = 0 ∧
    (img4x4.width : ℤ) - degenerateCrop.cropLeft = -6 := by
  decide

end Phototonic
